import Mathlib

/-!
Shallow embedding of `tiny_agent` (files `src/tiny_agent/core.py`).

The embedding models:
* Python values stored in the agent memory and carried by tool results
  (`Value`, a JSON-like value type; Python `None` is `Value.null`);
* pydantic `ToolResult` (`success`, `data`, `error`, `metadata`) and its
  `.dict()` serialization;
* `Memory` (`_store` as an insertion-ordered association list mirroring a
  Python `dict`, `_history` as the append-only record list); timestamps
  produced by `datetime.utcnow().isoformat()` are an external input and are
  threaded as an explicit `ts : String` argument to mutating operations;
* `Agent` (`tools` registry, `memory`), with `register_tool`, `get_tool`,
  `execute_tool` and `run`.  A Python exception raised by a tool's
  `execute` is modelled as `Except.error msg` where `msg` is `str(e)`.
-/

/-- A Python value as stored in agent memory or carried in a tool result.
`null` models Python `None`. -/
inductive Value where
  | null : Value
  | boolV : Bool → Value
  | strV : String → Value
  | intV : Int → Value
  | listV : List Value → Value
  | dictV : List (String × Value) → Value


/-- Single quote character, used when building Python error-message strings. -/
def squote : String := String.singleton (Char.ofNat 39)

/-- Lookup in a Python `dict` modelled as an insertion-ordered association
list: `d.get(k)` returns the value of the first (unique) entry for `k`. -/
def dictGet {α : Type} (d : List (String × α)) (k : String) : Option α :=
  match d with
  | [] => none
  | (k2, v) :: rest => if k2 = k then some v else dictGet rest k

/-- Python `k in d`. -/
def dictContains {α : Type} (d : List (String × α)) (k : String) : Bool :=
  (dictGet d k).isSome

/-- Python `d[k] = v`: updates the existing entry in place (keeping its
position) or appends a new entry at the end. -/
def dictSet {α : Type} (d : List (String × α)) (k : String) (v : α) :
    List (String × α) :=
  match d with
  | [] => [(k, v)]
  | (k2, w) :: rest =>
    if k2 = k then (k2, v) :: rest else (k2, w) :: dictSet rest k v

/-- Python `del d[k]`: removes the (unique) entry for `k`. -/
def dictDelete {α : Type} (d : List (String × α)) (k : String) :
    List (String × α) :=
  match d with
  | [] => []
  | (k2, v) :: rest =>
    if k2 = k then rest else (k2, v) :: dictDelete rest k

/-- Python `list(d.keys())`. -/
def dictKeys {α : Type} (d : List (String × α)) : List String :=
  d.map Prod.fst

/-- `ToolResult` (core.py lines 10-15): pydantic model with fields
`success`, `data` (default `None`), `error` (default `None`),
`metadata` (default empty dict). -/
structure ToolResult where
  success : Bool
  data : Value
  error : Option String
  metadata : List (String × Value)


/-- `result.dict()` (pydantic serialization used at core.py line 109):
a dict with the four field names in declaration order. -/
def ToolResult.toDict (r : ToolResult) : Value :=
  Value.dictV
    [("success", Value.boolV r.success),
     ("data", r.data),
     ("error", match r.error with
               | none => Value.null
               | some s => Value.strV s),
     ("metadata", Value.dictV r.metadata)]

/-- One entry of `Memory._history` (core.py lines 40-45 and 55-59): a dict
with `action`, `key`, `value` (only for `set`) and `timestamp`. -/
inductive MemoryRecord where
  | setR : String → Value → String → MemoryRecord
  | deleteR : String → String → MemoryRecord


/-- `Memory` (core.py lines 30-67): `_store` is the current key-value dict,
`_history` the append-only list of mutation records. -/
structure Memory where
  store : List (String × Value)
  history : List MemoryRecord


/-- `Memory.__init__`: empty store, empty history. -/
def Memory.empty : Memory :=
  { store := [], history := [] }

/-- `Memory.set` (core.py lines 37-45): upsert the key and append a `set`
record carrying the value and the current timestamp `ts`. -/
def Memory.set (m : Memory) (key : String) (value : Value) (ts : String) :
    Memory :=
  { store := dictSet m.store key value,
    history := m.history ++ [MemoryRecord.setR key value ts] }

/-- `Memory.get` (core.py lines 47-49): `self._store.get(key, default)`.
A call with no explicit default passes Python `None`, i.e. `Value.null`. -/
def Memory.get (m : Memory) (key : String) (default : Value) : Value :=
  match dictGet m.store key with
  | some v => v
  | none => default

/-- `Memory.delete` (core.py lines 51-59): only when the key is present,
remove it and append a `delete` record; otherwise do nothing (no record). -/
def Memory.delete (m : Memory) (key : String) (ts : String) : Memory :=
  if dictContains m.store key then
    { store := dictDelete m.store key,
      history := m.history ++ [MemoryRecord.deleteR key ts] }
  else m

/-- `Memory.list_keys` (core.py lines 61-63). -/
def Memory.list_keys (m : Memory) : List String :=
  dictKeys m.store

/-- `Memory.get_history` (core.py lines 65-67): `self._history.copy()`.
In the pure embedding the returned list value; aliasing of the contained
record objects is modelled separately by `HMemory`. -/
def Memory.get_history (m : Memory) : List MemoryRecord :=
  m.history

/-- The keyword arguments of a tool invocation. -/
def Kwargs : Type := List (String × Value)

/-- A registered tool as the kernel uses it: `name`, `description` and the
`execute` operation (core.py lines 18-27).  `execute` returning
`Except.error msg` models a Python exception whose `str(e)` is `msg`;
`Except.ok r` models a normal return of the `ToolResult` `r`. -/
structure ToolCap where
  name : String
  description : String
  execute : Kwargs → Except String ToolResult

/-- An arbitrary Python object offered to `register_tool`.  The three
`has…` flags model `hasattr` for the members the runtime-checkable `Tool`
protocol requires; the `…Val` fields give the attribute values when
present. -/
structure PyObj where
  hasName : Bool
  nameVal : String
  hasDescription : Bool
  descriptionVal : String
  hasExecute : Bool
  executeVal : Kwargs → Except String ToolResult

/-- `isinstance(tool, Tool)` for the runtime-checkable protocol
(core.py lines 18-27, used at line 85): checks that the attributes
`name`, `description` and `execute` are present; it does not inspect
their values (in particular it does not require `name` non-empty). -/
def isinstanceTool (t : PyObj) : Bool :=
  t.hasName && t.hasDescription && t.hasExecute

/-- View a conforming object as the capability the registry stores. -/
def PyObj.toCap (t : PyObj) : ToolCap :=
  { name := t.nameVal,
    description := t.descriptionVal,
    execute := t.executeVal }

/-- Errors the kernel raises to its caller (never wrapped in an envelope). -/
inductive PyError where
  | typeError : String → PyError

/-- `Agent` (core.py lines 70-136): the tool registry and the memory.
The `verbose` flag and the loggers only produce log lines and are
irrelevant to every observable modelled here. -/
structure Agent where
  name : String
  memory : Memory
  tools : List (String × ToolCap)

/-- `Agent.__init__`: empty registry, fresh memory. -/
def Agent.init (name : String) : Agent :=
  { name := name, memory := Memory.empty, tools := [] }

/-- `Agent.register_tool` (core.py lines 83-89): `TypeError` when the
object fails the `isinstance` protocol check, otherwise
`self.tools[tool.name] = tool` (insert or overwrite, no duplicate check). -/
def Agent.register_tool (a : Agent) (tool : PyObj) :
    Except PyError Agent :=
  if !(isinstanceTool tool) then
    Except.error (PyError.typeError "Tool does not implement Tool protocol")
  else
    Except.ok { a with tools := dictSet a.tools tool.nameVal tool.toCap }

/-- `Agent.get_tool` (core.py lines 91-93). -/
def Agent.get_tool (a : Agent) (name : String) : Option ToolCap :=
  dictGet a.tools name

/-- The failure-envelope message for an unregistered tool name
(core.py line 101): `Tool '<name>' not found`. -/
def toolNotFoundMsg (toolName : String) : String :=
  "Tool " ++ squote ++ toolName ++ squote ++ " not found"

/-- `Agent.execute_tool` (core.py lines 95-117).  Returns the envelope and
the agent after the call.  The not-found branch returns a failure envelope
with no memory write; on a normal tool return the serialized envelope is
stored under `tool_<name>_last_result` and the envelope returned; an
exception from `execute` is caught before the memory write is reached, so
the fault branch returns a failure envelope carrying `str(e)` and leaves
the agent unchanged.  No branch raises to the caller. -/
def Agent.execute_tool (a : Agent) (tool_name : String) (kwargs : Kwargs)
    (ts : String) : ToolResult × Agent :=
  match a.get_tool tool_name with
  | none =>
    ({ success := false, data := Value.null,
       error := some (toolNotFoundMsg tool_name), metadata := [] }, a)
  | some tool =>
    match tool.execute kwargs with
    | Except.ok result =>
      let key := "tool_" ++ tool_name ++ "_last_result"
      (result,
       { a with memory := a.memory.set key result.toDict ts })
    | Except.error e =>
      ({ success := false, data := Value.null,
         error := some e, metadata := [] }, a)

/-- The dict returned by `Agent.run` (core.py lines 131-136). -/
structure RunResult where
  task : String
  status : String
  tools_available : List String
  memory_keys : List String

/-- `Agent.run` (core.py lines 119-136): store the task under
`current_task`, then report the fixed summary with status `completed`. -/
def Agent.run (a : Agent) (task : String) (ts : String) :
    RunResult × Agent :=
  let a2 := { a with memory := a.memory.set "current_task" (Value.strV task) ts }
  ({ task := task,
     status := "completed",
     tools_available := a2.tools.map Prod.fst,
     memory_keys := a2.memory.list_keys }, a2)

/-- Replay one history record over a current-state dict: a `set` record
assigns its value to its key, a `delete` record removes its key. -/
def replayStep (d : List (String × Value)) (r : MemoryRecord) :
    List (String × Value) :=
  match r with
  | MemoryRecord.setR k v _ => dictSet d k v
  | MemoryRecord.deleteR k _ => dictDelete d k

/-- Replay a whole history from the empty dict, in order. -/
def replay (records : List MemoryRecord) : List (String × Value) :=
  List.foldl replayStep [] records

/-- The memory states reachable from a fresh `Memory` through the public
mutating operations (`get`, `list_keys` and `get_history` do not change
the state). -/
inductive Memory.Reachable : Memory → Prop where
  | empty : Memory.Reachable Memory.empty
  | set (m : Memory) (key : String) (value : Value) (ts : String) :
      Memory.Reachable m → Memory.Reachable (m.set key value ts)
  | delete (m : Memory) (key : String) (ts : String) :
      Memory.Reachable m → Memory.Reachable (m.delete key ts)

/-!
Heap-refined model of `Memory` for the aliasing behaviour of
`get_history`.  Python `self._history.copy()` copies the list of
references but not the record dicts those references point to.  Records
live in a heap (`heap`, address = list index); `histRefs` is the internal
history as the list of addresses of its records.  `HMemory.get_history`
returns that address list (the copied list); writing a record object in
place is `heapWrite`, visible through every reference to that address.
-/

/-- `Memory` refined with a heap of record objects: the internal history
is a list of heap addresses. -/
structure HMemory where
  heap : List MemoryRecord
  store : List (String × Value)
  histRefs : List Nat

/-- Fresh heap-modelled memory. -/
def HMemory.empty : HMemory :=
  { heap := [], store := [], histRefs := [] }

/-- `Memory.set` in the heap model: allocate the new record dict as a
fresh heap cell and append its address to the internal history. -/
def HMemory.set (m : HMemory) (key : String) (value : Value) (ts : String) :
    HMemory :=
  { heap := m.heap ++ [MemoryRecord.setR key value ts],
    store := dictSet m.store key value,
    histRefs := m.histRefs ++ [m.heap.length] }

/-- `Memory.delete` in the heap model. -/
def HMemory.delete (m : HMemory) (key : String) (ts : String) : HMemory :=
  if dictContains m.store key then
    { heap := m.heap ++ [MemoryRecord.deleteR key ts],
      store := dictDelete m.store key,
      histRefs := m.histRefs ++ [m.heap.length] }
  else m

/-- `Memory.get_history` in the heap model: `self._history.copy()` copies
the list of references; the record objects are not copied. -/
def HMemory.get_history (m : HMemory) : List Nat :=
  m.histRefs

/-- Mutating a record object in place (e.g. `rec["key"] = ...` on a record
obtained from a returned history): overwrite the heap cell at `addr`. -/
def heapWrite (heap : List MemoryRecord) (addr : Nat) (r : MemoryRecord) :
    List MemoryRecord :=
  heap.set addr r

/-- The record sequence a holder of `refs` observes through heap `h`. -/
def derefHistory (h : List MemoryRecord) (refs : List Nat) :
    List (Option MemoryRecord) :=
  refs.map (fun i => h[i]?)

/-- Heap-model states reachable from a fresh store. -/
inductive HMemory.Reachable : HMemory → Prop where
  | empty : HMemory.Reachable HMemory.empty
  | set (m : HMemory) (key : String) (value : Value) (ts : String) :
      HMemory.Reachable m → HMemory.Reachable (m.set key value ts)
  | delete (m : HMemory) (key : String) (ts : String) :
      HMemory.Reachable m → HMemory.Reachable (m.delete key ts)

/-! ### Association-list lemmas for the Python dict model -/

theorem dictGet_dictSet_self {α : Type} (d : List (String × α)) (k : String)
    (v : α) : dictGet (dictSet d k v) k = some v := by
  induction d with
  | nil => simp [dictSet, dictGet]
  | cons p rest ih =>
    obtain ⟨k2, w⟩ := p
    by_cases h : k2 = k
    · simp [dictSet, dictGet, h]
    · simp [dictSet, dictGet, h, ih]

theorem mem_dictKeys_dictSet {α : Type} (d : List (String × α)) (k : String)
    (v : α) : k ∈ dictKeys (dictSet d k v) := by
  induction d with
  | nil => simp [dictSet, dictKeys]
  | cons p rest ih =>
    obtain ⟨k2, w⟩ := p
    by_cases h : k2 = k
    · simp [dictSet, dictKeys, h]
    · simp only [dictSet, dictKeys, if_neg h, List.map_cons, List.mem_cons]
      exact Or.inr ih

theorem dictContains_iff_mem {α : Type} (d : List (String × α))
    (k : String) : dictContains d k = true ↔ k ∈ dictKeys d := by
  induction d with
  | nil => simp [dictContains, dictGet, dictKeys]
  | cons p rest ih =>
    obtain ⟨k2, w⟩ := p
    by_cases h : k2 = k
    · simp [dictContains, dictGet, dictKeys, h]
    · simp only [dictContains, dictGet, if_neg h, dictKeys, List.map_cons,
        List.mem_cons]
      rw [← dictKeys, ← dictContains, ih]
      constructor
      · exact Or.inr
      · rintro (h2 | h2)
        · exact absurd h2.symm h
        · exact h2

theorem dictKeys_dictSet {α : Type} (d : List (String × α)) (k : String)
    (v : α) :
    dictKeys (dictSet d k v) =
      if dictContains d k then dictKeys d else dictKeys d ++ [k] := by
  induction d with
  | nil => simp [dictSet, dictKeys, dictContains, dictGet]
  | cons p rest ih =>
    obtain ⟨k2, w⟩ := p
    by_cases h : k2 = k
    · simp [dictSet, dictKeys, dictContains, dictGet, h]
    · simp only [dictSet, if_neg h, dictKeys, List.map_cons, dictContains,
        dictGet]
      rw [← dictKeys, ← dictKeys, ← dictContains, ih]
      by_cases hc : dictContains rest k
      · simp [hc, dictKeys, h]
      · simp [hc, dictKeys, h]

theorem dictKeys_dictDelete_sublist {α : Type} (d : List (String × α))
    (k : String) : (dictKeys (dictDelete d k)).Sublist (dictKeys d) := by
  induction d with
  | nil => simp [dictDelete, dictKeys]
  | cons p rest ih =>
    obtain ⟨k2, w⟩ := p
    by_cases h : k2 = k
    · simp only [dictDelete, if_pos h, dictKeys, List.map_cons]
      exact List.sublist_cons_of_sublist k2 (List.Sublist.refl _)
    · simp only [dictDelete, if_neg h, dictKeys, List.map_cons]
      exact List.Sublist.cons₂ k2 ih

theorem not_mem_dictKeys_dictDelete {α : Type} (d : List (String × α))
    (k : String) (hnd : (dictKeys d).Nodup) :
    k ∉ dictKeys (dictDelete d k) := by
  induction d with
  | nil => simp [dictDelete, dictKeys]
  | cons p rest ih =>
    obtain ⟨k2, w⟩ := p
    simp only [dictKeys, List.map_cons, List.nodup_cons] at hnd
    by_cases h : k2 = k
    · simp only [dictDelete, if_pos h]
      subst h
      exact hnd.1
    · simp only [dictDelete, if_neg h, dictKeys, List.map_cons,
        List.mem_cons, not_or]
      exact ⟨fun h2 => h h2.symm, ih hnd.2⟩

theorem nodup_dictKeys_dictSet {α : Type} (d : List (String × α))
    (k : String) (v : α) (hnd : (dictKeys d).Nodup) :
    (dictKeys (dictSet d k v)).Nodup := by
  rw [dictKeys_dictSet]
  by_cases hc : dictContains d k
  · simpa [hc]
  · have hk : k ∉ dictKeys d := fun hm =>
      hc ((dictContains_iff_mem d k).mpr hm)
    simp [hc, List.nodup_append, hnd, hk]

theorem nodup_dictKeys_dictDelete {α : Type} (d : List (String × α))
    (k : String) (hnd : (dictKeys d).Nodup) :
    (dictKeys (dictDelete d k)).Nodup :=
  (dictKeys_dictDelete_sublist d k).nodup hnd

/-! ### Invariants of reachable memory states -/

theorem nodup_store_keys_of_reachable (m : Memory)
    (h : Memory.Reachable m) : (dictKeys m.store).Nodup := by
  induction h with
  | empty => simp [Memory.empty, dictKeys]
  | set m key value ts _ ih =>
    exact nodup_dictKeys_dictSet m.store key value ih
  | delete m key ts _ ih =>
    by_cases hc : dictContains m.store key
    · simpa [Memory.delete, hc] using
        nodup_dictKeys_dictDelete m.store key ih
    · simpa [Memory.delete, hc] using ih

theorem replay_append_one (h : List MemoryRecord) (r : MemoryRecord) :
    replay (h ++ [r]) = replayStep (replay h) r := by
  simp [replay, List.foldl_append]

/-! ### Heap-model invariants -/

theorem hreachable_refs_lt_heap_length (m : HMemory)
    (h : HMemory.Reachable m) : ∀ i ∈ m.histRefs, i < m.heap.length := by
  induction h with
  | empty => simp [HMemory.empty]
  | set m key value ts _ ih =>
    intro i hi
    simp only [HMemory.set, List.mem_append, List.mem_singleton] at hi
    simp only [HMemory.set, List.length_append, List.length_singleton]
    rcases hi with hi | hi
    · exact Nat.lt_succ_of_lt (ih i hi)
    · subst hi
      exact Nat.lt_succ_self _
  | delete m key ts _ ih =>
    intro i hi
    by_cases hc : dictContains m.store key
    · simp only [HMemory.delete, if_pos hc, List.mem_append,
        List.mem_singleton] at hi
      simp only [HMemory.delete, if_pos hc, List.length_append,
        List.length_singleton]
      rcases hi with hi | hi
      · exact Nat.lt_succ_of_lt (ih i hi)
      · subst hi
        exact Nat.lt_succ_self _
    · simp only [HMemory.delete, if_neg hc] at hi ⊢
      exact ih i hi

theorem derefHistory_append (h : List MemoryRecord)
    (extra : List MemoryRecord) (refs : List Nat)
    (hv : ∀ i ∈ refs, i < h.length) :
    derefHistory (h ++ extra) refs = derefHistory h refs := by
  unfold derefHistory
  apply List.map_congr_left
  intro i hi
  exact List.getElem?_append_left (hv i hi)

/-! ### Claim theorems -/

/-- C8: for every key `k` and value `v`, `set k v` followed by `get k`
returns `v`; `get` on an absent key returns the supplied default (Python
passes `None`, i.e. `Value.null`, when no default is given).  `Memory.get`
is a total pure function of the store, so it never fails and has no side
effect by construction. -/
theorem memory_set_get_spec (m : Memory) (k : String) (v : Value)
    (ts : String) (d : Value) :
    (m.set k v ts).get k d = v ∧
    (dictGet m.store k = none → m.get k d = d) := by
  constructor
  · simp [Memory.set, Memory.get, dictGet_dictSet_self]
  · intro h
    simp [Memory.get, h]

/-- Witness for C8 at concrete inputs. -/
theorem memory_set_get_witness :
    (Memory.empty.set "k" (Value.strV "v") "t").get "k" Value.null
        = Value.strV "v" ∧
    Memory.empty.get "missing" (Value.strV "d") = Value.strV "d" :=
  ⟨(memory_set_get_spec Memory.empty "k" (Value.strV "v") "t" Value.null).1,
   (memory_set_get_spec Memory.empty "missing" (Value.strV "v") "t"
      (Value.strV "d")).2 rfl⟩

/-- C6: for every agent (whatever its registered tools) and every task,
`run` records the task into memory under `current_task`, and the returned
summary carries the given task, status `completed`, and a `memory_keys`
list containing `current_task`. -/
theorem run_spec (a : Agent) (task : String) (ts : String) :
    (a.run task ts).1.task = task ∧
    (a.run task ts).1.status = "completed" ∧
    "current_task" ∈ (a.run task ts).1.memory_keys ∧
    (a.run task ts).2.memory.get "current_task" Value.null
        = Value.strV task := by
  refine ⟨rfl, rfl, ?_, ?_⟩
  · simpa [Agent.run, Memory.list_keys, Memory.set] using
      mem_dictKeys_dictSet a.memory.store "current_task" (Value.strV task)
  · simp [Agent.run, Memory.get, Memory.set, dictGet_dictSet_self]

/-- C2: `execute_tool` on a name absent from the registry returns the
not-found failure envelope and returns the agent unchanged — same memory
state and history, no record appended; as a total function it raises
nothing. -/
theorem execute_tool_not_found_spec (a : Agent) (toolName : String)
    (kwargs : Kwargs) (ts : String)
    (h : a.get_tool toolName = none) :
    a.execute_tool toolName kwargs ts =
      ({ success := false, data := Value.null,
         error := some (toolNotFoundMsg toolName), metadata := [] }, a) := by
  simp [Agent.execute_tool, h]

/-- Witness for C2: a fresh agent has no tool named `nonexistent`. -/
theorem execute_tool_not_found_witness :
    (Agent.init "ag").execute_tool "nonexistent" [] "t" =
      ({ success := false, data := Value.null,
         error := some (toolNotFoundMsg "nonexistent"), metadata := [] },
       Agent.init "ag") :=
  execute_tool_not_found_spec (Agent.init "ag") "nonexistent" [] "t" rfl

/-- C7: `execute_tool` on a registered tool whose `execute` returns
normally hands back the tool's own envelope unchanged, and the memory
value under `tool_<name>_last_result` afterwards is that envelope
serialized by `.dict()`. -/
theorem execute_tool_ok_spec (a : Agent) (toolName : String)
    (kwargs : Kwargs) (ts : String) (tool : ToolCap) (r : ToolResult)
    (hreg : a.get_tool toolName = some tool)
    (hok : tool.execute kwargs = Except.ok r) :
    (a.execute_tool toolName kwargs ts).1 = r ∧
    (a.execute_tool toolName kwargs ts).2.memory.get
        ("tool_" ++ toolName ++ "_last_result") Value.null = r.toDict := by
  simp [Agent.execute_tool, hreg, hok, Memory.get, Memory.set,
    dictGet_dictSet_self]

/-- The fixed envelope returned by the witness tool for C7. -/
def echoResult : ToolResult :=
  { success := true, data := Value.dictV [("echo", Value.strV "hi")],
    error := none, metadata := [] }

/-- A tool that always succeeds with `echoResult` (witness for C7). -/
def echoCap : ToolCap :=
  { name := "echo", description := "echoes its input",
    execute := fun _ => Except.ok echoResult }

/-- An agent holding only `echoCap` (witness for C7). -/
def agentEcho : Agent :=
  { name := "ag", memory := Memory.empty, tools := [("echo", echoCap)] }

/-- Witness for C7 at concrete inputs. -/
theorem execute_tool_ok_witness :
    (agentEcho.execute_tool "echo" [] "t").1 = echoResult ∧
    (agentEcho.execute_tool "echo" [] "t").2.memory.get
        ("tool_" ++ "echo" ++ "_last_result") Value.null
        = echoResult.toDict :=
  execute_tool_ok_spec agentEcho "echo" [] "t" echoCap echoResult rfl rfl

/-- C10: `execute_tool` on a registered tool whose `execute` raises leaves
the memory's current state and history exactly as before the call; in
particular the value read under `tool_<name>_last_result` is unchanged
(the `self.memory.set` at core.py line 109 sits after the `await` inside
the `try`, so the fault path never reaches it). -/
theorem execute_tool_fault_frame (a : Agent) (toolName : String)
    (kwargs : Kwargs) (ts : String) (tool : ToolCap) (e : String)
    (hreg : a.get_tool toolName = some tool)
    (herr : tool.execute kwargs = Except.error e) :
    (a.execute_tool toolName kwargs ts).2.memory.store = a.memory.store ∧
    (a.execute_tool toolName kwargs ts).2.memory.history
        = a.memory.history ∧
    (a.execute_tool toolName kwargs ts).2.memory.get
        ("tool_" ++ toolName ++ "_last_result") Value.null
      = a.memory.get ("tool_" ++ toolName ++ "_last_result") Value.null := by
  simp [Agent.execute_tool, hreg, herr]

/-- A tool that always raises an exception with message `kaboom`
(witness and counterexample input for the fault-path claims). -/
def boomCap : ToolCap :=
  { name := "boom", description := "always raises",
    execute := fun _ => Except.error "kaboom" }

/-- An agent holding only `boomCap`. -/
def agentBoom : Agent :=
  { name := "ag", memory := Memory.empty, tools := [("boom", boomCap)] }

/-- Witness for C10 at concrete inputs. -/
theorem execute_tool_fault_frame_witness :
    (agentBoom.execute_tool "boom" [] "t").2.memory.store
        = agentBoom.memory.store ∧
    (agentBoom.execute_tool "boom" [] "t").2.memory.history
        = agentBoom.memory.history ∧
    (agentBoom.execute_tool "boom" [] "t").2.memory.get
        ("tool_" ++ "boom" ++ "_last_result") Value.null
      = agentBoom.memory.get ("tool_" ++ "boom" ++ "_last_result")
          Value.null :=
  execute_tool_fault_frame agentBoom "boom" [] "t" boomCap "kaboom" rfl rfl

/-- C4: for every memory state reachable from a fresh store through the
public mutating operations, the current key-value mapping equals the
mapping obtained by replaying the history in order (a `set` record
assigns its value to its key, a `delete` record removes its key); `get`,
`list_keys` and `get_history` do not change the state, so the invariant
is preserved by every operation. -/
theorem memory_replay_invariant (m : Memory) (h : Memory.Reachable m) :
    m.store = replay m.history := by
  induction h with
  | empty => rfl
  | set m key value ts _ ih =>
    simp [Memory.set, replay_append_one, replayStep, ← ih]
  | delete m key ts _ ih =>
    by_cases hc : dictContains m.store key
    · simp [Memory.delete, hc, replay_append_one, replayStep, ← ih]
    · have hid : m.delete key ts = m := by simp [Memory.delete, hc]
      rw [hid]
      exact ih

/-- A concrete reachable memory: two sets and a delete. -/
def memReplayEx : Memory :=
  ((Memory.empty.set "a" (Value.intV 1) "t1").set "b"
      (Value.intV 2) "t2").delete "a" "t3"

/-- Witness for C4 at a concrete reachable state. -/
theorem memory_replay_invariant_witness :
    Memory.Reachable memReplayEx ∧
    memReplayEx.store = replay memReplayEx.history :=
  have hr : Memory.Reachable memReplayEx :=
    Memory.Reachable.delete _ _ _
      (Memory.Reachable.set _ _ _ _
        (Memory.Reachable.set _ _ _ _ Memory.Reachable.empty))
  ⟨hr, memory_replay_invariant memReplayEx hr⟩

/-- C5: on a reachable memory state (every state of the program; its
store keys are unique), `delete` on a present key removes it from the
store — it no longer appears in `list_keys` — and appends exactly one
`delete` record; `delete` on an absent key returns the memory unchanged,
appending zero records. -/
theorem memory_delete_spec (m : Memory) (key ts : String)
    (hr : Memory.Reachable m) :
    (dictContains m.store key = true →
      (m.delete key ts).store = dictDelete m.store key ∧
      key ∉ (m.delete key ts).list_keys ∧
      (m.delete key ts).history
          = m.history ++ [MemoryRecord.deleteR key ts]) ∧
    (dictContains m.store key = false → m.delete key ts = m) := by
  constructor
  · intro hc
    refine ⟨by simp [Memory.delete, hc], ?_, by simp [Memory.delete, hc]⟩
    simp only [Memory.delete, hc, if_true, Memory.list_keys]
    exact not_mem_dictKeys_dictDelete m.store key
      (nodup_store_keys_of_reachable m hr)
  · intro hc
    simp [Memory.delete, hc]

/-- A concrete reachable one-key memory for the C5 witness. -/
def memDeleteEx : Memory := Memory.empty.set "a" (Value.intV 1) "t1"

/-- Witness for C5: both the present-key and the absent-key branch at
concrete inputs. -/
theorem memory_delete_witness :
    ((memDeleteEx.delete "a" "t2").store = dictDelete memDeleteEx.store "a" ∧
     "a" ∉ (memDeleteEx.delete "a" "t2").list_keys ∧
     (memDeleteEx.delete "a" "t2").history
        = memDeleteEx.history ++ [MemoryRecord.deleteR "a" "t2"]) ∧
    memDeleteEx.delete "zzz" "t2" = memDeleteEx :=
  have hr : Memory.Reachable memDeleteEx :=
    Memory.Reachable.set _ _ _ _ Memory.Reachable.empty
  ⟨(memory_delete_spec memDeleteEx "a" "t2" hr).1 rfl,
   (memory_delete_spec memDeleteEx "zzz" "t2" hr).2 rfl⟩

/-- Counterexample to C1 as stated: with `boomCap` registered, the call
returns the failure envelope with the fault's message, but the memory
value afterwards under `tool_boom_last_result` is `Value.null` (the key
was never written), not the serialized failure envelope the claim
requires. -/
theorem execute_tool_fault_cex :
    (agentBoom.execute_tool "boom" [] "t").1 =
      { success := false, data := Value.null,
        error := some "kaboom", metadata := [] } ∧
    (agentBoom.execute_tool "boom" [] "t").2.memory.get
        "tool_boom_last_result" Value.null ≠
      ({ success := false, data := Value.null,
         error := some "kaboom", metadata := [] } : ToolResult).toDict := by
  refine ⟨rfl, fun h => ?_⟩
  exact Value.noConfusion h

/-- C1 (amended): on a registered tool whose `execute` raises,
`execute_tool` returns the failure envelope whose `error` is the fault's
message and propagates no exception, but the memory write is skipped: the
agent (memory included) comes back unchanged. -/
theorem execute_tool_fault_spec (a : Agent) (toolName : String)
    (kwargs : Kwargs) (ts : String) (tool : ToolCap) (e : String)
    (hreg : a.get_tool toolName = some tool)
    (herr : tool.execute kwargs = Except.error e) :
    (a.execute_tool toolName kwargs ts).1 =
      { success := false, data := Value.null,
        error := some e, metadata := [] } ∧
    (a.execute_tool toolName kwargs ts).2 = a := by
  simp [Agent.execute_tool, hreg, herr]

/-- Witness for the amended C1 at concrete inputs. -/
theorem execute_tool_fault_witness :
    (agentBoom.execute_tool "boom" [] "t2").1 =
      { success := false, data := Value.null,
        error := some "kaboom", metadata := [] } ∧
    (agentBoom.execute_tool "boom" [] "t2").2 = agentBoom :=
  execute_tool_fault_spec agentBoom "boom" [] "t2" boomCap "kaboom" rfl rfl

/-- An object with all three protocol attributes but an empty `name`
(counterexample input for C3). -/
def objEmptyName : PyObj :=
  { hasName := true, nameVal := "",
    hasDescription := true, descriptionVal := "a tool with an empty name",
    hasExecute := true,
    executeVal := fun _ =>
      Except.ok { success := true, data := Value.null,
                  error := none, metadata := [] } }

/-- Counterexample to C3 as stated: the runtime protocol check only tests
attribute presence, so a capability whose `name` is the empty string is
registered without any `TypeError` (the claim requires a `TypeError` for
a capability lacking a non-empty name). -/
theorem register_tool_empty_name_cex :
    objEmptyName.nameVal = "" ∧
    (Agent.init "ag").register_tool objEmptyName =
      Except.ok { name := "ag", memory := Memory.empty,
                  tools := [("", objEmptyName.toCap)] } :=
  ⟨rfl, rfl⟩

/-- C3 (amended): `register_tool` raises a `TypeError` exactly when the
object lacks one of the attributes `name`, `description`, `execute`
(values are not inspected: an empty name passes); otherwise it inserts or
overwrites the registry entry keyed by the capability's name, so for a
duplicate name the last registration wins and no duplicate-detection
error is raised. -/
theorem register_tool_spec (a : Agent) (t1 t2 : PyObj) :
    (isinstanceTool t1 = false →
      a.register_tool t1 =
        Except.error
          (PyError.typeError "Tool does not implement Tool protocol")) ∧
    (isinstanceTool t1 = true →
      a.register_tool t1 =
        Except.ok { a with tools := dictSet a.tools t1.nameVal t1.toCap }) ∧
    (isinstanceTool t1 = true →
      ∀ a2 : Agent, a.register_tool t1 = Except.ok a2 →
        a2.get_tool t1.nameVal = some t1.toCap ∧
        (isinstanceTool t2 = true → t2.nameVal = t1.nameVal →
          ∀ a3 : Agent, a2.register_tool t2 = Except.ok a3 →
            a3.get_tool t1.nameVal = some t2.toCap)) := by
  refine ⟨fun h1 => by simp [Agent.register_tool, h1],
          fun h1 => by simp [Agent.register_tool, h1],
          fun h1 a2 h2 => ?_⟩
  have ha2 : a2 = { a with tools := dictSet a.tools t1.nameVal t1.toCap } := by
    simp [Agent.register_tool, h1] at h2
    exact h2.symm
  subst ha2
  constructor
  · simp [Agent.get_tool, dictGet_dictSet_self]
  · intro h3 hname a3 h4
    have ha3 : a3 =
        { a with tools := dictSet (dictSet a.tools t1.nameVal t1.toCap)
                            t2.nameVal t2.toCap } := by
      simp [Agent.register_tool, h3] at h4
      exact h4.symm
    subst ha3
    simp [Agent.get_tool, hname, dictGet_dictSet_self]

/-- Non-conforming object for the C3 witness: no `execute` attribute. -/
def objNoExecute : PyObj :=
  { hasName := true, nameVal := "broken",
    hasDescription := true, descriptionVal := "lacks execute",
    hasExecute := false,
    executeVal := fun _ =>
      Except.ok { success := true, data := Value.null,
                  error := none, metadata := [] } }

/-- First registration under the duplicate name (C3 witness input). -/
def objDup1 : PyObj :=
  { hasName := true, nameVal := "dup",
    hasDescription := true, descriptionVal := "first",
    hasExecute := true,
    executeVal := fun _ =>
      Except.ok { success := true, data := Value.intV 1,
                  error := none, metadata := [] } }

/-- Second registration under the duplicate name (C3 witness input). -/
def objDup2 : PyObj :=
  { hasName := true, nameVal := "dup",
    hasDescription := true, descriptionVal := "second",
    hasExecute := true,
    executeVal := fun _ =>
      Except.ok { success := true, data := Value.intV 2,
                  error := none, metadata := [] } }

/-- Agent after registering `objDup1` into a fresh agent. -/
def agentDup1 : Agent :=
  { name := "ag", memory := Memory.empty, tools := [("dup", objDup1.toCap)] }

/-- Agent after registering `objDup2` on top of `agentDup1`. -/
def agentDup2 : Agent :=
  { name := "ag", memory := Memory.empty, tools := [("dup", objDup2.toCap)] }

/-- Witness for the amended C3: a non-conforming object raises the
`TypeError`, and two conforming registrations under the same name leave
the second capability in the registry. -/
theorem register_tool_spec_witness :
    (Agent.init "ag").register_tool objNoExecute =
      Except.error
        (PyError.typeError "Tool does not implement Tool protocol") ∧
    agentDup1.get_tool "dup" = some objDup1.toCap ∧
    agentDup2.get_tool "dup" = some objDup2.toCap :=
  ⟨(register_tool_spec (Agent.init "ag") objNoExecute objNoExecute).1 rfl,
   ((register_tool_spec (Agent.init "ag") objDup1 objDup2).2.2 rfl
      agentDup1 rfl).1,
   (((register_tool_spec (Agent.init "ag") objDup1 objDup2).2.2 rfl
      agentDup1 rfl).2 rfl rfl agentDup2 rfl)⟩

/-- Heap-model memory with one `set` record (counterexample input for
C9). -/
def hmemOne : HMemory := HMemory.empty.set "k" (Value.strV "v") "t0"

/-- An in-place mutation a caller applies to the record it obtained
through the returned history copy. -/
def evilRecord : MemoryRecord :=
  MemoryRecord.setR "hacked" (Value.strV "v") "t0"

/-- Counterexample to C9 as stated: `self._history.copy()` is a shallow
copy, so the returned sequence shares its record objects with the store.
Mutating the contained record (heap cell 0, reachable from the returned
copy `[0]`) changes the record sequence the store itself observes. -/
theorem get_history_shallow_copy_cex :
    hmemOne.get_history = [0] ∧
    derefHistory (heapWrite hmemOne.heap 0 evilRecord) hmemOne.histRefs ≠
      derefHistory hmemOne.heap hmemOne.histRefs := by
  refine ⟨rfl, fun h => ?_⟩
  have h0 : derefHistory (heapWrite hmemOne.heap 0 evilRecord)
      hmemOne.histRefs = [some evilRecord] := rfl
  have h1 : derefHistory hmemOne.heap hmemOne.histRefs
      = [some (MemoryRecord.setR "k" (Value.strV "v") "t0")] := rfl
  rw [h0, h1] at h
  injection h with h2 _
  injection h2 with h3
  injection h3 with h4 _ _
  exact absurd h4 (by decide)

/-- C9 (amended): `get_history` returns a shallow copy.  The list value
itself is independent of the store — later mutations only allocate fresh
record objects and append their references, so the records a previously
returned copy dereferences are unchanged by any later `set` or `delete` —
but the record objects are shared, so mutating a contained record in
place through the returned copy does change the store's internal history
(see the counterexample). -/
theorem get_history_frame (m : HMemory) (hr : HMemory.Reachable m)
    (k : String) (v : Value) (ts : String) :
    derefHistory (m.set k v ts).heap m.get_history =
      derefHistory m.heap m.get_history ∧
    derefHistory (m.delete k ts).heap m.get_history =
      derefHistory m.heap m.get_history := by
  have hv := hreachable_refs_lt_heap_length m hr
  constructor
  · exact derefHistory_append m.heap _ m.histRefs hv
  · by_cases hc : dictContains m.store k
    · simp only [HMemory.delete, if_pos hc, HMemory.get_history]
      exact derefHistory_append m.heap _ m.histRefs hv
    · simp [HMemory.delete, hc]

/-- Reachable heap-model memory for the C9 witness. -/
def hmemW : HMemory := HMemory.empty.set "a" Value.null "t1"

/-- Witness for the amended C9 at concrete inputs. -/
theorem get_history_frame_witness :
    HMemory.Reachable hmemW ∧
    derefHistory (hmemW.set "b" Value.null "t2").heap hmemW.get_history =
      derefHistory hmemW.heap hmemW.get_history ∧
    derefHistory (hmemW.delete "a" "t2").heap hmemW.get_history =
      derefHistory hmemW.heap hmemW.get_history :=
  have hr : HMemory.Reachable hmemW :=
    HMemory.Reachable.set _ _ _ _ HMemory.Reachable.empty
  ⟨hr, (get_history_frame hmemW hr "b" Value.null "t2").1,
       (get_history_frame hmemW hr "a" Value.null "t2").2⟩
